import Mathlib

/-!
Verification of the cimon CI-monitor core algorithms against their
natural-language specification.

The Go sources are embedded shallowly:

* the retry/backoff and error-classification code (package gh) works on Go
  strings byte-wise, so Go strings are modelled there as lists of byte
  values (GoStr);
* the log-structuring engine, the diff engine, the model/update controller
  and multi-repository aggregation compare and concatenate whole strings,
  so Lean String is used there (Go string equality and concatenation agree
  with Lean String equality and concatenation on UTF-8 text);
* a stateful Go closure passed to RetryWithBackoff is modelled as a
  function from the call number to the result of that call;
* machine integers are modelled as Int or Nat; the only overflowing
  operations reachable here are the byte arithmetic in equalIgnoreCase
  (modelled with explicit mod 256) and strconv.Atoi range clamping
  (modelled explicitly).
-/

namespace Cimon

/-! ## Retry and error classification (package gh, retry code)

Go strings are byte arrays there; a GoStr is the list of byte values. -/

abbrev GoStr := List Nat

/-- Byte encoding of an ASCII string literal (Char.toNat equals the byte
value for ASCII characters). -/
def strBytes (s : String) : GoStr := s.toList.map Char.toNat

/-- An error value as seen by the retry code: either the typed
RetryableError wrapper (inner message plus explicit Retryable flag) or a
plain error carrying only a message. RetryableError.Error() returns the
message of the inner error. -/
inductive GoErr where
  | retryableErr (msg : GoStr) (flag : Bool)
  | plain (msg : GoStr)
deriving DecidableEq, Repr

/-- The Error() text of an error (for RetryableError this is the wrapped
message of the wrapped error). -/
def GoErr.errMsg : GoErr → GoStr
  | .retryableErr m _ => m
  | .plain m => m

/-- equalIgnoreCase from the source: two byte strings of equal length where
each byte pair is equal or differs by exactly 32 (byte arithmetic wraps
mod 256, as in Go). -/
def equalIgnoreCase (a b : GoStr) : Bool :=
  a.length == b.length &&
    (a.zip b).all fun p =>
      p.1 == p.2 || p.1 == (p.2 + 256 - 32) % 256 || p.1 == (p.2 + 32) % 256

/-- containsInMiddle from the source: equalIgnoreCase against every
substring window of s (loop bound i from 0 to len s - len substr). -/
def containsInMiddle (s substr : GoStr) : Bool :=
  (List.range (s.length - substr.length + 1)).any fun i =>
    equalIgnoreCase ((s.drop i).take substr.length) substr

/-- containsIgnoreCase from the source: exact equality when the lengths
are equal, otherwise (for strictly longer s) a case-sensitive prefix or
suffix test or the case-folded window scan. -/
def containsIgnoreCase (s substr : GoStr) : Bool :=
  decide (s.length ≥ substr.length) &&
    (s == substr ||
      (decide (s.length > substr.length) &&
        (s.take substr.length == substr ||
          s.drop (s.length - substr.length) == substr ||
          containsInMiddle s substr)))

/-- The fixed transient-error substring patterns from IsRetryable. -/
def retryablePatterns : List GoStr :=
  [strBytes "502", strBytes "503", strBytes "504",
   strBytes "429",
   strBytes "timeout",
   strBytes "connection refused",
   strBytes "network is unreachable",
   strBytes "temporary failure",
   strBytes "service unavailable"]

/-- IsRetryable from the source: nil errors are not retryable, a typed
RetryableError answers by its flag, and a plain error is tested against
the pattern list with containsIgnoreCase. -/
def IsRetryable : Option GoErr → Bool
  | none => false
  | some (.retryableErr _ flag) => flag
  | some (.plain msg) => retryablePatterns.any fun p => containsIgnoreCase msg p

/-- Retry configuration (durations in nanoseconds, as Go time.Duration). -/
structure RetryConfig where
  MaxRetries : Nat
  BaseDelay : Nat
  MaxDelay : Nat
deriving DecidableEq, Repr

/-- DefaultRetryConfig from the source: 3 retries, 1s base delay, 30s max. -/
def DefaultRetryConfig : RetryConfig :=
  { MaxRetries := 3, BaseDelay := 1000000000, MaxDelay := 30000000000 }

/-- The backoff delay before retrying attempt number attempt:
BaseDelay * 2 ^ attempt capped at MaxDelay. The source computes this in
float64; for every value reachable under the default configuration
(at most 4e9 < 2^53) the float computation is exact, so Nat arithmetic is
a faithful model. -/
def backoffDelay (cfg : RetryConfig) (attempt : Nat) : Nat :=
  min (cfg.BaseDelay * 2 ^ attempt) cfg.MaxDelay

/-- The observable outcome of RetryWithBackoff: how many times the
function was invoked, the sleeps performed between attempts (in order),
and the final result (none = success, some msg = the text of the returned
error). -/
structure RetryOutcome where
  calls : Nat
  delays : List Nat
  result : Option GoStr
deriving DecidableEq, Repr

/-- The error text produced when the loop ends with an error:
fmt.Errorf("failed after %d retries: %w", cfg.MaxRetries, lastErr). -/
def wrapRetries (maxRetries : Nat) (lastErr : GoStr) : GoStr :=
  strBytes ("failed after " ++ toString maxRetries ++ " retries: ") ++ lastErr

/-- The loop body of RetryWithBackoff. remaining counts the attempts still
allowed after the current one (remaining = MaxRetries - attempt), so
remaining = 0 exactly when attempt == MaxRetries, the break on the last
attempt. fn n is the result of the (n+1)-th invocation of the closure. -/
def retryGo (fn : Nat → Option GoErr) (cfg : RetryConfig) :
    Nat → Nat → RetryOutcome
  | remaining, attempt =>
    match fn attempt with
    | none => ⟨attempt + 1, [], none⟩
    | some e =>
      match remaining with
      | 0 => ⟨attempt + 1, [], some (wrapRetries cfg.MaxRetries e.errMsg)⟩
      | r + 1 =>
        if IsRetryable (some e) then
          let rest := retryGo fn cfg r (attempt + 1)
          ⟨rest.calls, backoffDelay cfg attempt :: rest.delays, rest.result⟩
        else
          ⟨attempt + 1, [], some (wrapRetries cfg.MaxRetries e.errMsg)⟩

/-- RetryWithBackoff from the source, as the outcome of running the loop
from attempt 0 with MaxRetries further attempts allowed. -/
def RetryWithBackoff (fn : Nat → Option GoErr) (cfg : RetryConfig) : RetryOutcome :=
  retryGo fn cfg cfg.MaxRetries 0

/-- Modelled from the spec: plain ASCII-case-insensitive substring
containment (both sides lower-cased, then an exact window scan). This is
the relation the specification says IsRetryable implements; it is compared
against containsIgnoreCase from the source. -/
def lowerByte (b : Nat) : Nat := if 65 ≤ b ∧ b ≤ 90 then b + 32 else b

/-- Modelled from the spec: s contains pat ignoring ASCII letter case. -/
def specContainsCI (s pat : GoStr) : Bool :=
  (List.range (s.length - pat.length + 1)).any fun i =>
    ((s.drop i).take pat.length).map lowerByte == pat.map lowerByte

/-- The call at index i failed with a plain error whose message matches a
transient pattern (a transient-pattern error in the words of the specification). -/
def transientAt (fn : Nat → Option GoErr) (i : Nat) : Prop :=
  ∃ msg, fn i = some (.plain msg) ∧
    ∃ p ∈ retryablePatterns, containsIgnoreCase msg p = true

/-- The call at index i failed with an error the code classifies as
retryable. -/
def retryableAt (fn : Nat → Option GoErr) (i : Nat) : Prop :=
  ∃ e, fn i = some e ∧ IsRetryable (some e) = true

/-! ## Data model (package gh, models)

Only the fields the verified operations read are carried; the remaining
fields of the Go structs (timestamps other than UpdatedAt, URLs, event,
branch, actor, steps) are never inspected by the functions under proof. -/

/-- A workflow run. UpdatedAt is in nanoseconds since the epoch. -/
structure WorkflowRun where
  id : Int
  name : String
  runNumber : Int
  status : String
  conclusion : Option String
  updatedAt : Nat
deriving DecidableEq, Repr

def StatusQueued : String := "queued"
def StatusInProgress : String := "in_progress"
def StatusCompleted : String := "completed"
def ConclusionSuccess : String := "success"
def ConclusionFailure : String := "failure"
def ConclusionCancelled : String := "cancelled"
def ConclusionSkipped : String := "skipped"
def ConclusionTimedOut : String := "timed_out"
def ConclusionActionRequired : String := "action_required"
def ConclusionNeutral : String := "neutral"

/-- IsCompleted from the source: the status equals StatusCompleted. -/
def WorkflowRun.IsCompleted (r : WorkflowRun) : Bool :=
  r.status == StatusCompleted

/-- IsSuccess from the source: false without a conclusion, else the
conclusion is success, neutral or skipped. -/
def WorkflowRun.IsSuccess (r : WorkflowRun) : Bool :=
  match r.conclusion with
  | none => false
  | some c => c == ConclusionSuccess || c == ConclusionNeutral || c == ConclusionSkipped

/-- IsFailure from the source: false without a conclusion, else the
conclusion is failure, cancelled, timed_out or action_required. -/
def WorkflowRun.IsFailure (r : WorkflowRun) : Bool :=
  match r.conclusion with
  | none => false
  | some c => c == ConclusionFailure || c == ConclusionCancelled ||
      c == ConclusionTimedOut || c == ConclusionActionRequired

/-- A job within a run (fields read by the modelled controller). -/
structure Job where
  id : Int
  name : String
  status : String
  conclusion : Option String
deriving DecidableEq, Repr

/-- A run tagged with its owning repository (multi-repository mode). -/
structure SourcedRun where
  owner : String
  repo : String
  run : WorkflowRun
deriving DecidableEq, Repr

/-! ## Log structuring engine (extractLogsFromZIPStructured)

The ZIP archive is modelled after decompression, as the list of its file
entries; an entry whose content is none is one the code fails to open or
read (and silently skips). -/

structure ZipEntry where
  name : String
  isDir : Bool
  content : Option String
deriving DecidableEq, Repr

/-- Helper for splitOnChar, walking the characters with the current field
accumulated in reverse. -/
def splitCharsAux (sep : Char) : List Char → List Char → List String
  | [], acc => [String.mk acc.reverse]
  | c :: cs, acc =>
    if c = sep then String.mk acc.reverse :: splitCharsAux sep cs []
    else splitCharsAux sep cs (c :: acc)

/-- Go strings.Split with a one-character separator (also used for the
last-slash filename strip: the last field of the split is the text after
the last separator). Splitting the empty string yields one empty field,
as in Go. -/
def splitOnChar (sep : Char) (s : String) : List String :=
  splitCharsAux sep s.toList []

structure StepLog where
  number : Nat
  name : String
  content : String
deriving DecidableEq, Repr

structure ParsedLogs where
  steps : List StepLog
  combined : String
  stepsByKey : List (String × String)
deriving DecidableEq, Repr

/-- One collected file entry of the extraction loop. -/
structure FileEntry where
  number : Nat
  name : String
  key : String
  content : String
deriving DecidableEq, Repr

/-- strconv.Atoi on a digit string: decimal value, clamped to the maximum
int64 on range overflow (the code discards the range error of Atoi, keeping the
clamped value). -/
def atoiDigits (ds : List Char) : Nat :=
  let v := ds.foldl (fun a c => a * 10 + (c.toNat - 48)) 0
  min v 9223372036854775807

/-- The regular expression from the source, anchored on the whole
filename: a nonempty digit prefix, an underscore, a nonempty middle with
no newline (a dot in Go regexp does not match a newline), and the literal
extension .txt. The digit prefix is maximal: the regex cannot backtrack to
a shorter one because the character after a shorter digit prefix is a
digit, never the required underscore. -/
def parseStepFilename (filename : String) : Option (Nat × String) :=
  let cs := filename.toList
  let digits := cs.takeWhile Char.isDigit
  match cs.dropWhile Char.isDigit with
  | '_' :: rest =>
    if digits.isEmpty then none
    else if rest.length ≥ 5 ∧ rest.drop (rest.length - 4) = ['.', 't', 'x', 't'] ∧
        (rest.take (rest.length - 4)).all (· ≠ '\n') then
      some (atoiDigits digits, String.mk (rest.take (rest.length - 4)))
    else none
  | _ => none

/-- strings.TrimSuffix(filename, ".txt"). -/
def trimSuffixTxt (s : String) : String :=
  let cs := s.toList
  if cs.length ≥ 4 ∧ cs.drop (cs.length - 4) = ['.', 't', 'x', 't'] then
    String.mk (cs.take (cs.length - 4))
  else s

/-- The per-entry work of the extraction loop: skip directories and
unreadable entries, strip any path up to the last slash, parse the step
number and name from the filename (falling back to step 0 with the
extension-trimmed filename), and build the lookup key. -/
def parseZipEntry (e : ZipEntry) : Option FileEntry :=
  if e.isDir then none
  else
    match e.content with
    | none => none
    | some content =>
      let filename := (splitOnChar '/' e.name).getLastD ""
      match parseStepFilename filename with
      | some (num, stepName) =>
        some ⟨num, stepName, toString num ++ "_" ++ stepName, content⟩
      | none =>
        some ⟨0, trimSuffixTxt filename, "0_" ++ trimSuffixTxt filename, content⟩

/-- The header-wrapped chunk one entry contributes to the combined text. -/
def entryChunk (fe : FileEntry) : String :=
  "=== " ++ fe.key ++ " ===\n" ++ fe.content ++ "\n\n"

/-- extractLogsFromZIPStructured from the source: collect the readable
file entries, sort them by step number (sort.Slice is an unstable sort;
insertion sort realizes one of its admissible outcomes), and build the
step list, the combined text and the key lookup in one pass over the
sorted entries. -/
def extractLogsFromZIPStructured (entries : List ZipEntry) : ParsedLogs :=
  let fes := entries.filterMap parseZipEntry
  let sorted := fes.insertionSort fun a b => a.number ≤ b.number
  { steps := sorted.map fun fe => ⟨fe.number, fe.name, fe.content⟩
    combined := String.join (sorted.map entryChunk)
    stepsByKey := sorted.map fun fe => (fe.key, fe.content) }

/-! ## Diff engine (computeDiff) -/

/-- One iteration of the diff loop: read both sides (empty string beyond
the end of a side), then append one context line on equality, otherwise a
removed line when the left side is nonempty followed by an added line when
the right side is nonempty. Colors: 0 context, -1 removed, 1 added. -/
def diffStep (lines1 lines2 : List String) (acc : List String × List Int)
    (i : Nat) : List String × List Int :=
  let line1 := lines1.getD i ""
  let line2 := lines2.getD i ""
  if line1 == line2 then (acc.1 ++ ["  " ++ line1], acc.2 ++ [0])
  else
    let acc1 := if line1 ≠ "" then (acc.1 ++ ["- " ++ line1], acc.2 ++ [-1]) else acc
    if line2 ≠ "" then (acc1.1 ++ ["+ " ++ line2], acc1.2 ++ [1]) else acc1

/-- computeDiff from the source: split both texts into lines, walk the
indices up to the longer length capped at 10000, appending to the result
and color lists in lockstep. -/
def computeDiff (logs1 logs2 : String) : List String × List Int :=
  let lines1 := splitOnChar '\n' logs1
  let lines2 := splitOnChar '\n' logs2
  let maxLen := min (max lines1.length lines2.length) 10000
  (List.range maxLen).foldl (diffStep lines1 lines2) ([], [])

/-- The per-index description, in the words of the specification, of the diff, used to state
the characterization theorem (result and color paired per emitted line). -/
def diffSpecAt (lines1 lines2 : List String) (i : Nat) : List (String × Int) :=
  let line1 := lines1.getD i ""
  let line2 := lines2.getD i ""
  if line1 == line2 then [("  " ++ line1, 0)]
  else (if line1 ≠ "" then [("- " ++ line1, -1)] else []) ++
    (if line2 ≠ "" then [("+ " ++ line2, 1)] else [])

/-! ## Multi-repository aggregation (fetchMultiRepoRuns) -/

/-- One configured repository source. -/
structure RepoConfig where
  owner : String
  repo : String
  branch : String
deriving DecidableEq, Repr

/-- FetchWorkflowRuns of the remote client, abstracted: arguments are
owner, repo, branch, status filter, page, per-page count. -/
abbrev FetchRuns :=
  String → String → String → String → Nat → Nat → Except String (List WorkflowRun)

def exceptOk {ε α : Type} : Except ε α → Bool
  | .ok _ => true
  | .error _ => false

instance {ε α : Type} [DecidableEq ε] [DecidableEq α] : DecidableEq (Except ε α) :=
  fun a b =>
    match a, b with
    | .ok x, .ok y =>
      if h : x = y then .isTrue (by rw [h]) else .isFalse (by simp [h])
    | .error x, .error y =>
      if h : x = y then .isTrue (by rw [h]) else .isFalse (by simp [h])
    | .ok _, .error _ => .isFalse (by simp)
    | .error _, .ok _ => .isFalse (by simp)

/-- The merged (pre-sort) run list: for each source, page 1 with 5 runs
per page is requested; a source whose fetch errors contributes nothing. -/
def mergedRuns (repos : List RepoConfig) (statusFilter : String)
    (fetch : FetchRuns) : List SourcedRun :=
  repos.flatMap fun rc =>
    match fetch rc.owner rc.repo rc.branch statusFilter 1 5 with
    | .error _ => []
    | .ok runs => runs.map fun r => ⟨rc.owner, rc.repo, r⟩

/-- The descending-by-update-time order used by the aggregation sort
(sort.Slice with an After comparison; ties may land in any order, and
insertion sort realizes one admissible outcome). -/
def laterFirst (a b : SourcedRun) : Prop := b.run.updatedAt ≤ a.run.updatedAt

instance : DecidableRel laterFirst := fun a b =>
  inferInstanceAs (Decidable (b.run.updatedAt ≤ a.run.updatedAt))

/-- fetchMultiRepoRuns from the source: merge, sort descending by update
time, and report an error when no source contributed any run. -/
def fetchMultiRepoRuns (repos : List RepoConfig) (statusFilter : String)
    (fetch : FetchRuns) : Except String (List SourcedRun) :=
  let allRuns := mergedRuns repos statusFilter fetch
  let sortedRuns := allRuns.insertionSort laterFirst
  if allRuns.isEmpty then .error "no workflow runs found across repositories"
  else .ok sortedRuns

/-! ## Selection toggles (toggleStepFilter, toggleMultiJobSelection) -/

/-- The removal scan both toggles start with: some l with the first
occurrence removed, or none when the value is absent. -/
def removeFirst {α : Type} [DecidableEq α] : List α → α → Option (List α)
  | [], _ => none
  | x :: xs, a => if x = a then some xs else (removeFirst xs a).map (x :: ·)

/-- toggleStepFilter from the source: remove the step number if selected,
otherwise append it. -/
def toggleStepFilter (sel : List Nat) (stepNum : Nat) : List Nat :=
  match removeFirst sel stepNum with
  | some sel2 => sel2
  | none => sel ++ [stepNum]

/-- toggleMultiJobSelection from the source: remove the job id if
selected, otherwise append it only while fewer than 4 are selected. -/
def toggleMultiJobSelection (sel : List Int) (jobID : Int) : List Int :=
  match removeFirst sel jobID with
  | some sel2 => sel2
  | none => if sel.length < 4 then sel ++ [jobID] else sel

/-! ## Controller (package tui Model/Update)

The controller state is modelled with the fields the verified transitions
read or write. Commands issued back to the runtime (fetchJobs,
scheduleNextPoll) carry no state and are not modelled; the notification
side effect of a step is returned as a count (0 or 1 invocations of the
notification/hook collaborator). -/

inductive TuiState where
  | loading | ready | watching | error | jobDetails | logViewer
  | branchSelection | statusFilter | help | workflowViewer
  | artifactSelection | logFilter | multiJobSelect | compareSelect
  | compareView
deriving DecidableEq, Repr

structure TuiModel where
  state : TuiState
  multiRepoMode : Bool
  runs : List WorkflowRun
  run : Option WorkflowRun
  jobs : List Job
  sourcedRuns : List SourcedRun
  selectedRunIndex : Int
  selectedSourcedRun : Int
  cursor : Int
  cfgOwner : String
  cfgRepo : String
  watching : Bool
  notificationSent : Bool
  exitCode : Int
deriving DecidableEq, Repr

/-- NewModel from the source (the fields carried here): state Loading,
empty collections, all cursors 0 (Go zero values or explicit 0),
watching taken from the configuration, notification guard cleared. -/
def NewModelState (cfgWatch cfgMultiRepo : Bool) (owner repo : String) : TuiModel :=
  { state := .loading, multiRepoMode := cfgMultiRepo, runs := [], run := none
    jobs := [], sourcedRuns := [], selectedRunIndex := 0, selectedSourcedRun := 0
    cursor := 0, cfgOwner := owner, cfgRepo := repo, watching := cfgWatch
    notificationSent := false, exitCode := 0 }

/-- The update messages modelled (the ones the verified transitions
consume): the two run-list completion messages, the jobs completion
message, and the watch-toggle key. -/
inductive TuiMsg where
  | runsLoaded (runs : List WorkflowRun)
  | multiRepoRunsLoaded (srs : List SourcedRun)
  | jobsLoaded (jobs : List Job)
  | keyWatch
deriving DecidableEq, Repr

/-- updateExitCode from the source: 2 with no run, 0 on success, 1 on
failure, 0 while still running or queued. -/
def updateExitCode (m : TuiModel) : TuiModel :=
  match m.run with
  | none => { m with exitCode := 2 }
  | some r =>
    if r.IsSuccess then { m with exitCode := 0 }
    else if r.IsFailure then { m with exitCode := 1 }
    else { m with exitCode := 0 }

/-- One Update step of the controller on a modelled message. The Nat in
the result counts invocations of the notification/hook collaborator
during the step. Indexing m.runs and m.sourcedRuns is by get? where the Go
code indexes the slice directly; the none branches correspond to indexing
panics, unreachable while the selection index is in range. -/
def stepMsg (m : TuiModel) : TuiMsg → TuiModel × Nat
  | .runsLoaded rs =>
    let m1 := { m with runs := rs }
    if 0 < rs.length then
      let sel : Int := if (rs.length : Int) ≤ m1.selectedRunIndex then 0
        else m1.selectedRunIndex
      ({ m1 with selectedRunIndex := sel, run := rs.get? sel.toNat }, 0)
    else
      ({ m1 with run := none, state := .ready }, 0)
  | .multiRepoRunsLoaded srs =>
    let m1 := { m with sourcedRuns := srs }
    if 0 < srs.length then
      let sel : Int := if (srs.length : Int) ≤ m1.selectedSourcedRun then 0
        else m1.selectedSourcedRun
      match srs.get? sel.toNat with
      | some sr =>
        ({ m1 with selectedSourcedRun := sel, run := some sr.run
                   cfgOwner := sr.owner, cfgRepo := sr.repo }, 0)
      | none => ({ m1 with selectedSourcedRun := sel }, 0)
    else
      ({ m1 with run := none, state := .ready }, 0)
  | .jobsLoaded js =>
    let m1 := { m with jobs := js }
    let m2 := if m1.watching then { m1 with state := .watching }
      else { m1 with state := .ready }
    let completed := m2.watching &&
      (match m2.run with | some r => r.IsCompleted | none => false)
    if completed then
      let m3 := { m2 with watching := false, state := .ready }
      if !m3.notificationSent then
        (updateExitCode { m3 with notificationSent := true }, 1)
      else (updateExitCode m3, 0)
    else (updateExitCode m2, 0)
  | .keyWatch =>
    let m1 := { m with watching := !m.watching }
    if m1.watching then
      ({ m1 with notificationSent := false, state := .watching }, 0)
    else
      ({ m1 with state := .ready }, 0)

/-- A sequence of update steps, accumulating the number of notification
invocations. -/
def runTrace (m : TuiModel) : List TuiMsg → TuiModel × Nat
  | [] => (m, 0)
  | e :: rest =>
    let s := stepMsg m e
    let t := runTrace s.1 rest
    (t.1, s.2 + t.2)

/-- No message in the sequence is a watch-key press arriving while the
watch flag is off (the only transition that turns watching on and resets
the notification guard). -/
def noWatchOn (m : TuiModel) : List TuiMsg → Bool
  | [] => true
  | e :: rest =>
    (e != .keyWatch || m.watching) && noWatchOn (stepMsg m e).1 rest

/-! ## Concrete inputs used to instantiate the theorems -/

/-- A closure failing once with a transient 502 error, then succeeding. -/
def fnW : Nat → Option GoErr := fun i =>
  if i = 0 then some (.plain (strBytes "http 502 bad gateway")) else none

/-- A closure failing every call with a non-retryable error. -/
def fnX : Nat → Option GoErr := fun _ => some (.plain (strBytes "boom"))

/-- An in-progress run without a conclusion. -/
def runNone : WorkflowRun := ⟨11, "ci", 1, "in_progress", none, 0⟩

/-- A completed, successful run. -/
def rdone : WorkflowRun := ⟨7, "ci", 9, "completed", some "success", 0⟩

/-- A watching controller looking at a completed run, notification not yet
sent. -/
def mW : TuiModel := { NewModelState true false "octo" "hello" with run := some rdone }

def rA1 : WorkflowRun := ⟨1, "w", 1, "completed", some "success", 10⟩
def rA2 : WorkflowRun := ⟨2, "w", 2, "completed", some "success", 30⟩
def rB1 : WorkflowRun := ⟨3, "w", 3, "completed", some "success", 20⟩
def repoA : RepoConfig := ⟨"oa", "ra", "main"⟩
def repoB : RepoConfig := ⟨"ob", "rb", "main"⟩

/-- Source A answers with two runs (update times 10 and 30), source B with
one run (update time 20). -/
def fetchAB : FetchRuns := fun o _ _ _ _ _ =>
  if o == "oa" then .ok [rA1, rA2] else .ok [rB1]

/-! ## Theorems: retry and backoff -/

/-- A transient-pattern failure is classified retryable. -/
theorem transientAt_retryableAt {fn : Nat → Option GoErr} {i : Nat}
    (h : transientAt fn i) : retryableAt fn i := by
  obtain ⟨msg, hfn, p, hp, hc⟩ := h
  refine ⟨.plain msg, hfn, ?_⟩
  show (retryablePatterns.any fun p => containsIgnoreCase msg p) = true
  exact List.any_eq_true.mpr ⟨p, hp, hc⟩

/-- Prepending the first sleep to the later sleeps gives the sleeps of the
whole loop. -/
theorem delays_shift (cfg : RetryConfig) (attempt k : Nat) :
    backoffDelay cfg attempt ::
        ((List.range k).map fun j => backoffDelay cfg (attempt + 1 + j)) =
      (List.range (k + 1)).map fun j => backoffDelay cfg (attempt + j) := by
  rw [List.range_succ_eq_map, List.map_cons, List.map_map]
  refine congrArg₂ _ (congrArg _ (by omega)) (List.map_congr_left fun j _ => ?_)
  show backoffDelay cfg (attempt + 1 + j) = backoffDelay cfg (attempt + (j + 1))
  exact congrArg _ (by omega)

/-- A successful call ends the loop at once. -/
theorem retryGo_none {fn : Nat → Option GoErr} {cfg : RetryConfig}
    {remaining attempt : Nat} (h : fn attempt = none) :
    retryGo fn cfg remaining attempt = ⟨attempt + 1, [], none⟩ := by
  cases remaining <;> (rw [retryGo.eq_def]; simp [h])

/-- A failure on the last allowed attempt breaks with the wrapped error. -/
theorem retryGo_last {fn : Nat → Option GoErr} {cfg : RetryConfig}
    {attempt : Nat} {e : GoErr} (h : fn attempt = some e) :
    retryGo fn cfg 0 attempt =
      ⟨attempt + 1, [], some (wrapRetries cfg.MaxRetries e.errMsg)⟩ := by
  rw [retryGo.eq_def]
  simp [h]

/-- A retryable failure before the last attempt sleeps and recurses. -/
theorem retryGo_retry {fn : Nat → Option GoErr} {cfg : RetryConfig}
    {r attempt : Nat} {e : GoErr} (h : fn attempt = some e)
    (hre : IsRetryable (some e) = true) :
    retryGo fn cfg (r + 1) attempt =
      ⟨(retryGo fn cfg r (attempt + 1)).calls,
       backoffDelay cfg attempt :: (retryGo fn cfg r (attempt + 1)).delays,
       (retryGo fn cfg r (attempt + 1)).result⟩ := by
  rw [retryGo.eq_def]
  simp [h, hre]

/-- A non-retryable failure before the last attempt aborts with the
wrapped error. -/
theorem retryGo_abort {fn : Nat → Option GoErr} {cfg : RetryConfig}
    {r attempt : Nat} {e : GoErr} (h : fn attempt = some e)
    (hre : IsRetryable (some e) = false) :
    retryGo fn cfg (r + 1) attempt =
      ⟨attempt + 1, [], some (wrapRetries cfg.MaxRetries e.errMsg)⟩ := by
  rw [retryGo.eq_def]
  simp [h, hre]

/-- k retryable failures followed by a success: k+1 calls, the k backoff
sleeps, and a nil result. -/
theorem retryGo_succeeds (fn : Nat → Option GoErr) (cfg : RetryConfig)
    (k : Nat) :
    ∀ (remaining attempt : Nat), k ≤ remaining →
      (∀ i, i < k → retryableAt fn (attempt + i)) →
      fn (attempt + k) = none →
      retryGo fn cfg remaining attempt =
        ⟨attempt + k + 1,
         (List.range k).map fun j => backoffDelay cfg (attempt + j), none⟩ := by
  induction k with
  | zero =>
    intro remaining attempt _ _ hnone
    rw [Nat.add_zero] at hnone
    simp [retryGo_none hnone]
  | succ k ih =>
    intro remaining attempt hle hret hnone
    obtain ⟨e, hfe, hre⟩ := hret 0 (Nat.succ_pos k)
    rw [Nat.add_zero] at hfe
    obtain ⟨r, rfl⟩ : ∃ r, remaining = r + 1 := ⟨remaining - 1, by omega⟩
    have hrec := ih r (attempt + 1) (by omega)
      (fun i hi => by
        have h2 := hret (i + 1) (by omega)
        rwa [show attempt + (i + 1) = attempt + 1 + i by omega] at h2)
      (by rw [show attempt + 1 + k = attempt + (k + 1) by omega]; exact hnone)
    rw [retryGo_retry hfe hre, hrec]
    try dsimp only
    rw [RetryOutcome.mk.injEq]
    exact ⟨by omega, delays_shift cfg attempt k, rfl⟩

/-- Every allowed attempt fails, the earlier ones retryably: the loop runs
all attempts, sleeps between them, and wraps the final error. -/
theorem retryGo_exhaust (fn : Nat → Option GoErr) (cfg : RetryConfig)
    (remaining : Nat) :
    ∀ (attempt : Nat),
      (∀ i, i < remaining → retryableAt fn (attempt + i)) →
      (∀ i, i ≤ remaining → (fn (attempt + i)).isSome) →
      ∃ e, fn (attempt + remaining) = some e ∧
        retryGo fn cfg remaining attempt =
          ⟨attempt + remaining + 1,
           (List.range remaining).map fun j => backoffDelay cfg (attempt + j),
           some (wrapRetries cfg.MaxRetries e.errMsg)⟩ := by
  induction remaining with
  | zero =>
    intro attempt _ hsome
    obtain ⟨e, he⟩ := Option.isSome_iff_exists.mp (hsome 0 (Nat.le_refl 0))
    rw [Nat.add_zero] at he
    exact ⟨e, by simpa using he, by simp [retryGo_last he]⟩
  | succ remaining ih =>
    intro attempt hret hsome
    obtain ⟨e0, hfe, hre⟩ := hret 0 (Nat.succ_pos remaining)
    rw [Nat.add_zero] at hfe
    obtain ⟨e, hlast, hrec⟩ := ih (attempt + 1)
      (fun i hi => by
        have h2 := hret (i + 1) (by omega)
        rwa [show attempt + (i + 1) = attempt + 1 + i by omega] at h2)
      (fun i hi => by
        have h2 := hsome (i + 1) (by omega)
        rwa [show attempt + (i + 1) = attempt + 1 + i by omega] at h2)
    refine ⟨e, by
      rwa [show attempt + (remaining + 1) = attempt + 1 + remaining by omega], ?_⟩
    rw [retryGo_retry hfe hre, hrec]
    try dsimp only
    rw [RetryOutcome.mk.injEq]
    exact ⟨by omega, delays_shift cfg attempt remaining, rfl⟩

/-- Whenever the loop produces an error, it is the wrap of the error of
the last call performed, the call numbered calls - 1 (the lastErr of the
Go loop). -/
theorem retryGo_result_wrapped (fn : Nat → Option GoErr) (cfg : RetryConfig) :
    ∀ (remaining attempt : Nat) (msg : GoStr),
      (retryGo fn cfg remaining attempt).result = some msg →
      ∃ e, fn ((retryGo fn cfg remaining attempt).calls - 1) = some e ∧
        attempt ≤ (retryGo fn cfg remaining attempt).calls - 1 ∧
        (retryGo fn cfg remaining attempt).calls - 1 ≤ attempt + remaining ∧
        msg = wrapRetries cfg.MaxRetries e.errMsg
  | 0, attempt, msg, h => by
    cases hfe : fn attempt with
    | none => rw [retryGo_none hfe] at h; simp at h
    | some e =>
      rw [retryGo_last hfe] at h ⊢
      simp only [Option.some_inj] at h
      dsimp only
      simp only [Nat.add_sub_cancel]
      exact ⟨e, hfe, Nat.le_refl _, by omega, h.symm⟩
  | remaining + 1, attempt, msg, h => by
    cases hfe : fn attempt with
    | none => rw [retryGo_none hfe] at h; simp at h
    | some e =>
      cases hre : IsRetryable (some e) with
      | false =>
        rw [retryGo_abort hfe hre] at h ⊢
        simp only [Option.some_inj] at h
        dsimp only
        simp only [Nat.add_sub_cancel]
        exact ⟨e, hfe, Nat.le_refl _, by omega, h.symm⟩
      | true =>
        rw [retryGo_retry hfe hre] at h ⊢
        dsimp only at h ⊢
        obtain ⟨e2, hf2, hi1, hi2, hm⟩ :=
          retryGo_result_wrapped fn cfg remaining (attempt + 1) msg h
        exact ⟨e2, hf2, by omega, by omega, hm⟩

/-- C1: under the default retry policy (3 retries), a function failing
with a transient-pattern error exactly k < 3 times and then succeeding is
invoked exactly k+1 times and the call succeeds, with the k sleeps being
base * 2 ^ attempt capped at the maximum; a function whose first error
matches no transient pattern is invoked exactly once; and a function
failing every attempt with a transient-pattern error is invoked exactly
4 times, sleeping 1s, 2s and 4s, and the returned error text contains the
retry count 3. -/
theorem C1_retry_counts_and_delays (fn : Nat → Option GoErr) :
    (∀ k, k < 3 → (∀ i, i < k → transientAt fn i) → fn k = none →
      RetryWithBackoff fn DefaultRetryConfig =
        ⟨k + 1, (List.range k).map fun j => min (1000000000 * 2 ^ j) 30000000000,
         none⟩) ∧
    (∀ msg, fn 0 = some (.plain msg) →
      (∀ p ∈ retryablePatterns, containsIgnoreCase msg p = false) →
      RetryWithBackoff fn DefaultRetryConfig = ⟨1, [], some (wrapRetries 3 msg)⟩) ∧
    ((∀ i, i ≤ 3 → transientAt fn i) →
      ∃ e, fn 3 = some e ∧
        RetryWithBackoff fn DefaultRetryConfig =
          ⟨4, [1000000000, 2000000000, 4000000000],
           some (wrapRetries 3 e.errMsg)⟩ ∧
        List.IsInfix (strBytes "3") (wrapRetries 3 e.errMsg)) := by
  have hR : ∀ g, RetryWithBackoff g DefaultRetryConfig =
      retryGo g DefaultRetryConfig 3 0 := fun _ => rfl
  refine ⟨?_, ?_, ?_⟩
  · intro k hk hret hnone
    have h := retryGo_succeeds fn DefaultRetryConfig k 3 0 (by omega)
      (fun i hi => by simpa using transientAt_retryableAt (hret i hi))
      (by simpa using hnone)
    rw [hR, h, RetryOutcome.mk.injEq]
    refine ⟨by omega, ?_, rfl⟩
    exact List.map_congr_left fun j _ => by
      show min (DefaultRetryConfig.BaseDelay * 2 ^ (0 + j)) DefaultRetryConfig.MaxDelay = _
      rw [show (0 + j) = j by omega]
      rfl
  · intro msg h0 hno
    have hre : IsRetryable (some (.plain msg)) = false := by
      show (retryablePatterns.any fun p => containsIgnoreCase msg p) = false
      rw [List.any_eq_false]
      intro p hp
      simp [hno p hp]
    have h := @retryGo_abort fn DefaultRetryConfig 2 0 (.plain msg) h0 hre
    rw [hR]
    exact h
  · intro hall
    obtain ⟨e, hlast, h⟩ := retryGo_exhaust fn DefaultRetryConfig 3 0
      (fun i hi => by simpa using transientAt_retryableAt (hall i (by omega)))
      (fun i hi => by
        obtain ⟨msg, hm, -⟩ := hall i hi
        simp [hm])
    refine ⟨e, by simpa using hlast, ?_, ?_⟩
    · rw [hR, h, RetryOutcome.mk.injEq]
      exact ⟨by omega, by decide, rfl⟩
    · refine ⟨strBytes "failed after ", strBytes " retries: " ++ e.errMsg, ?_⟩
      have hsplit :
          strBytes "failed after " ++ strBytes "3" ++ strBytes " retries: " =
            strBytes ("failed after " ++ toString 3 ++ " retries: ") := by decide
      calc strBytes "failed after " ++ strBytes "3" ++
            (strBytes " retries: " ++ e.errMsg)
          = (strBytes "failed after " ++ strBytes "3" ++ strBytes " retries: ") ++
              e.errMsg := by simp [List.append_assoc]
        _ = wrapRetries 3 e.errMsg := by rw [hsplit]; rfl

/-- C1 witness: a closure failing once with a 502 error and then
succeeding is invoked twice, sleeps once for 1s, and succeeds. -/
theorem C1_retry_counts_and_delays_witness :
    RetryWithBackoff fnW DefaultRetryConfig = ⟨2, [1000000000], none⟩ := by
  have h := (C1_retry_counts_and_delays fnW).1 1 (by omega)
    (fun i hi => by
      refine ⟨strBytes "http 502 bad gateway", ?_, strBytes "502", by decide, by decide⟩
      have : i = 0 := by omega
      subst this
      rfl)
    rfl
  rw [h]
  decide

/-- C10: whenever RetryWithBackoff returns an error - including a
non-retryable first failure - the error text is the "failed after N
retries:" wrapper (N the configured MaxRetries) around the text of the
error of the LAST attempt performed, the call numbered calls - 1; the
underlying error never escapes unwrapped. -/
theorem C10_error_always_wrapped (fn : Nat → Option GoErr) (cfg : RetryConfig)
    (msg : GoStr) (h : (RetryWithBackoff fn cfg).result = some msg) :
    ∃ e, fn ((RetryWithBackoff fn cfg).calls - 1) = some e ∧
      (RetryWithBackoff fn cfg).calls - 1 ≤ cfg.MaxRetries ∧
      msg = strBytes ("failed after " ++ toString cfg.MaxRetries ++ " retries: ") ++
        e.errMsg := by
  rw [show RetryWithBackoff fn cfg = retryGo fn cfg cfg.MaxRetries 0 from rfl] at h ⊢
  obtain ⟨e, hf, h1, h2, hm⟩ :=
    retryGo_result_wrapped fn cfg cfg.MaxRetries 0 msg h
  exact ⟨e, hf, by omega, hm⟩

/-- C10 witness: the always-failing non-retryable closure makes a single
call and returns the wrapper around the error of that last (and only)
call. -/
theorem C10_error_always_wrapped_witness :
    ∃ e, fnX ((RetryWithBackoff fnX DefaultRetryConfig).calls - 1) = some e ∧
      (RetryWithBackoff fnX DefaultRetryConfig).calls - 1 ≤
        DefaultRetryConfig.MaxRetries ∧
      strBytes "failed after 3 retries: boom" =
        strBytes ("failed after " ++ toString DefaultRetryConfig.MaxRetries ++
          " retries: ") ++ e.errMsg :=
  C10_error_always_wrapped fnX DefaultRetryConfig
    (strBytes "failed after 3 retries: boom") (by decide)

/-- C5: the code is not the case-insensitive substring test its own
documentation and the specification describe: the error text TIMEOUT
contains the pattern timeout ignoring letter case (and no other pattern),
yet IsRetryable rejects it, because containsIgnoreCase tests equal-length
strings by exact equality only. -/
theorem C5_case_insensitivity_bug :
    specContainsCI (strBytes "TIMEOUT") (strBytes "timeout") = true ∧
    (∀ p ∈ retryablePatterns, p ≠ strBytes "timeout" →
      specContainsCI (strBytes "TIMEOUT") p = false) ∧
    IsRetryable (some (.plain (strBytes "TIMEOUT"))) = false := by
  refine ⟨by decide, ?_, by decide⟩
  decide

/-! ## Theorems: run predicates -/

/-- C6: IsCompleted is exactly the status test against completed; with no
conclusion both IsSuccess and IsFailure are false; no conclusion value
makes both true; and the success conclusions (success, neutral, skipped)
and failure conclusions (failure, cancelled, timed_out, action_required)
each switch their predicate on. -/
theorem C6_run_predicates (r : WorkflowRun) :
    (r.IsCompleted = (r.status == "completed")) ∧
    (r.conclusion = none → r.IsSuccess = false ∧ r.IsFailure = false) ∧
    (¬(r.IsSuccess = true ∧ r.IsFailure = true)) ∧
    (∀ c, r.conclusion = some c →
      ((c = "success" ∨ c = "neutral" ∨ c = "skipped") → r.IsSuccess = true) ∧
      ((c = "failure" ∨ c = "cancelled" ∨ c = "timed_out" ∨
          c = "action_required") → r.IsFailure = true)) := by
  refine ⟨rfl, ?_, ?_, ?_⟩
  · intro h
    simp [WorkflowRun.IsSuccess, WorkflowRun.IsFailure, h]
  · rintro ⟨hs, hf⟩
    cases hc : r.conclusion with
    | none => simp [WorkflowRun.IsSuccess, hc] at hs
    | some c =>
      simp only [WorkflowRun.IsSuccess, hc, Bool.or_eq_true, beq_iff_eq,
        ConclusionSuccess, ConclusionNeutral, ConclusionSkipped] at hs
      simp only [WorkflowRun.IsFailure, hc, Bool.or_eq_true, beq_iff_eq,
        ConclusionFailure, ConclusionCancelled, ConclusionTimedOut,
        ConclusionActionRequired] at hf
      rcases hs with (h | h) | h <;> rcases hf with ((g | g) | g) | g <;>
        (subst h; simp at g)
  · intro c hc
    constructor
    · rintro (h | h | h) <;>
        simp [WorkflowRun.IsSuccess, hc, h, ConclusionSuccess,
          ConclusionNeutral, ConclusionSkipped]
    · rintro (h | h | h | h) <;>
        simp [WorkflowRun.IsFailure, hc, h, ConclusionFailure,
          ConclusionCancelled, ConclusionTimedOut, ConclusionActionRequired]

/-- C6 witness: a run without a conclusion satisfies neither IsSuccess nor
IsFailure. -/
theorem C6_run_predicates_witness :
    runNone.IsSuccess = false ∧ runNone.IsFailure = false :=
  (C6_run_predicates runNone).2.1 rfl

/-! ## Theorems: log structuring -/

/-- Every collected file entry carries the key built from its own number
and name. -/
theorem parseZipEntry_key {e : ZipEntry} {fe : FileEntry}
    (h : parseZipEntry e = some fe) :
    fe.key = toString fe.number ++ "_" ++ fe.name := by
  rcases e with ⟨ename, isDir, content⟩
  cases isDir with
  | true => simp [parseZipEntry] at h
  | false =>
    cases content with
    | none => simp [parseZipEntry] at h
    | some c =>
      simp only [parseZipEntry, Bool.false_eq_true, if_false] at h
      cases hps : parseStepFilename ((splitOnChar '/' ename).getLastD "") with
      | some p =>
        rw [hps] at h
        obtain ⟨num, sname⟩ := p
        simp only [Option.some_inj] at h
        rw [← h]
      | none =>
        rw [hps] at h
        simp only [Option.some_inj] at h
        rw [← h]
        show "0_" ++ _ = toString 0 ++ "_" ++ _
        rfl

/-- C2: the combined text equals the concatenation, over the steps in
their produced (ascending by number) order, of the header
=== number_name === on its own line, the step content, and a blank line;
and the step list is sorted ascending by step number. -/
theorem C2_combined_round_trip (entries : List ZipEntry) :
    ((extractLogsFromZIPStructured entries).combined =
      String.join ((extractLogsFromZIPStructured entries).steps.map fun s =>
        "=== " ++ toString s.number ++ "_" ++ s.name ++ " ===\n" ++
          s.content ++ "\n\n")) ∧
    (extractLogsFromZIPStructured entries).steps.Pairwise fun a b =>
      a.number ≤ b.number := by
  have hkey : ∀ fe ∈ (entries.filterMap parseZipEntry).insertionSort
      (fun a b => a.number ≤ b.number),
      fe.key = toString fe.number ++ "_" ++ fe.name := by
    intro fe hfe
    have hmem : fe ∈ entries.filterMap parseZipEntry :=
      (List.perm_insertionSort _ _).mem_iff.mp hfe
    obtain ⟨e, -, he⟩ := List.mem_filterMap.mp hmem
    exact parseZipEntry_key he
  constructor
  · show String.join _ = String.join (List.map _ (List.map _ _))
    rw [List.map_map]
    refine congrArg _ (List.map_congr_left fun fe hfe => ?_)
    show entryChunk fe = "=== " ++ toString fe.number ++ "_" ++ fe.name ++
      " ===\n" ++ fe.content ++ "\n\n"
    rw [entryChunk, hkey fe hfe]
    simp [String.append_assoc]
  · haveI : IsTotal FileEntry (fun a b => a.number ≤ b.number) :=
      ⟨fun a b => Nat.le_total a.number b.number⟩
    haveI : IsTrans FileEntry (fun a b => a.number ≤ b.number) :=
      ⟨fun _ _ _ hab hbc => le_trans hab hbc⟩
    have hs := List.sorted_insertionSort (fun a b : FileEntry => a.number ≤ b.number)
      (entries.filterMap parseZipEntry)
    show List.Pairwise _ (List.map _ _)
    exact List.Pairwise.map _ (fun a b hab => hab) hs

/-! ## Theorems: diff engine -/

/-- One diff iteration appends exactly the per-index emission of the
specification, to both the line list and the color list. -/
theorem diffStep_spec (lines1 lines2 : List String)
    (acc : List String × List Int) (i : Nat) :
    diffStep lines1 lines2 acc i =
      (acc.1 ++ (diffSpecAt lines1 lines2 i).map Prod.fst,
       acc.2 ++ (diffSpecAt lines1 lines2 i).map Prod.snd) := by
  unfold diffStep diffSpecAt
  dsimp only
  split_ifs <;> simp

/-- Folding the diff loop over any index list appends the concatenated
per-index emissions. -/
theorem diff_foldl_spec (lines1 lines2 : List String) :
    ∀ (idxs : List Nat) (acc : List String × List Int),
      idxs.foldl (diffStep lines1 lines2) acc =
        (acc.1 ++ (idxs.flatMap (diffSpecAt lines1 lines2)).map Prod.fst,
         acc.2 ++ (idxs.flatMap (diffSpecAt lines1 lines2)).map Prod.snd)
  | [], acc => by simp
  | i :: idxs, acc => by
    rw [List.foldl_cons, diffStep_spec, diff_foldl_spec lines1 lines2 idxs _]
    simp [List.append_assoc]

/-- C3: the diff of two texts is exactly the per-index walk of the
specification over the split lines, indices 0 up to the longer line count
capped at 10000: one context line on equality, otherwise a removed line
when the left side is nonempty at that index followed by an added line
when the right side is; and on the example of the claim the output is context
a, removed b, added c, removed c. -/
theorem C3_diff_positional (logs1 logs2 : String) :
    (computeDiff logs1 logs2 =
      (((List.range (min (max (splitOnChar '\n' logs1).length
            (splitOnChar '\n' logs2).length) 10000)).flatMap
          (diffSpecAt (splitOnChar '\n' logs1) (splitOnChar '\n' logs2))).map
            Prod.fst,
       ((List.range (min (max (splitOnChar '\n' logs1).length
            (splitOnChar '\n' logs2).length) 10000)).flatMap
          (diffSpecAt (splitOnChar '\n' logs1) (splitOnChar '\n' logs2))).map
            Prod.snd)) ∧
    computeDiff "a\nb\nc" "a\nc" =
      (["  a", "- b", "+ c", "- c"], [0, -1, 1, -1]) := by
  constructor
  · show (List.range _).foldl _ ([], []) = _
    rw [diff_foldl_spec]
    simp
  · decide

/-! ## Theorems: multi-repository aggregation -/

/-- Dropping the sources whose fetch errors leaves the merged list
unchanged: erroring sources contribute nothing. -/
theorem mergedRuns_filter_ok (repos : List RepoConfig) (f : String)
    (fetch : FetchRuns) :
    mergedRuns (repos.filter fun rc =>
        exceptOk (fetch rc.owner rc.repo rc.branch f 1 5)) f fetch =
      mergedRuns repos f fetch := by
  induction repos with
  | nil => rfl
  | cons rc rest ih =>
    by_cases h : exceptOk (fetch rc.owner rc.repo rc.branch f 1 5) = true
    · simp only [List.filter_cons, h, if_true]
      unfold mergedRuns at *
      rw [List.flatMap_cons, List.flatMap_cons, ih]
    · simp only [List.filter_cons, h, if_false, Bool.false_eq_true]
      cases hfe : fetch rc.owner rc.repo rc.branch f 1 5 with
      | ok runs => rw [hfe] at h; simp [exceptOk] at h
      | error err =>
        unfold mergedRuns at *
        rw [List.flatMap_cons, hfe, ih]
        rfl

/-- The aggregation reads the fetch of each source only at page 1, 5 per page. -/
theorem mergedRuns_congr (repos : List RepoConfig) (f : String)
    {fetch fetch2 : FetchRuns}
    (h : ∀ rc ∈ repos, fetch rc.owner rc.repo rc.branch f 1 5 =
      fetch2 rc.owner rc.repo rc.branch f 1 5) :
    mergedRuns repos f fetch = mergedRuns repos f fetch2 := by
  induction repos with
  | nil => rfl
  | cons rc rest ih =>
    unfold mergedRuns at *
    rw [List.flatMap_cons, List.flatMap_cons, h rc (by simp),
      ih fun rc2 h2 => h rc2 (by simp [h2])]

/-- C4 counterexample: with one configured source whose fetch fails, the
total is zero and the aggregation reports an error, but the error text is
the string "no workflow runs found across repositories" from the code, not the claimed
"no runs found across repositories". -/
theorem C4_error_text_counterexample :
    fetchMultiRepoRuns [⟨"octo", "hello", "main"⟩] ""
        (fun _ _ _ _ _ _ => .error "HTTP 500") =
      .error "no workflow runs found across repositories" ∧
    fetchMultiRepoRuns [⟨"octo", "hello", "main"⟩] ""
        (fun _ _ _ _ _ _ => .error "HTTP 500") ≠
      .error "no runs found across repositories" :=
  ⟨by decide, by decide⟩

/-- C4 (amended): the aggregation requests page 1 with 5 runs per source
and depends on nothing else of the client; erroring sources are skipped
without failing the whole aggregation; a zero-run total yields the error
"no workflow runs found across repositories"; otherwise the result is a
permutation of the merged runs sorted descending by update time; and on
the scenario of the specification (source A with update times 10 and 30,
source B with 20) the order is 30, 20, 10 regardless of source. -/
theorem C4_aggregation (repos : List RepoConfig) (statusFilter : String)
    (fetch : FetchRuns) :
    (fetchMultiRepoRuns repos statusFilter fetch =
      fetchMultiRepoRuns (repos.filter fun rc =>
        exceptOk (fetch rc.owner rc.repo rc.branch statusFilter 1 5))
        statusFilter fetch) ∧
    (∀ fetch2 : FetchRuns,
      (∀ rc ∈ repos, fetch rc.owner rc.repo rc.branch statusFilter 1 5 =
        fetch2 rc.owner rc.repo rc.branch statusFilter 1 5) →
      fetchMultiRepoRuns repos statusFilter fetch =
        fetchMultiRepoRuns repos statusFilter fetch2) ∧
    (mergedRuns repos statusFilter fetch = [] →
      fetchMultiRepoRuns repos statusFilter fetch =
        .error "no workflow runs found across repositories") ∧
    (mergedRuns repos statusFilter fetch ≠ [] →
      ∃ l, fetchMultiRepoRuns repos statusFilter fetch = .ok l ∧
        l.Perm (mergedRuns repos statusFilter fetch) ∧
        l.Pairwise laterFirst) ∧
    fetchMultiRepoRuns [repoA, repoB] "" fetchAB =
      .ok [⟨"oa", "ra", rA2⟩, ⟨"ob", "rb", rB1⟩, ⟨"oa", "ra", rA1⟩] := by
  refine ⟨?_, ?_, ?_, ?_, by decide⟩
  · unfold fetchMultiRepoRuns
    rw [mergedRuns_filter_ok]
  · intro fetch2 h
    unfold fetchMultiRepoRuns
    rw [mergedRuns_congr repos statusFilter h]
  · intro h
    simp [fetchMultiRepoRuns, h]
  · intro h
    refine ⟨(mergedRuns repos statusFilter fetch).insertionSort laterFirst,
      ?_, List.perm_insertionSort _ _, ?_⟩
    · simp [fetchMultiRepoRuns, List.isEmpty_iff, h]
    · haveI : IsTotal SourcedRun laterFirst :=
        ⟨fun a b => Nat.le_total b.run.updatedAt a.run.updatedAt⟩
      haveI : IsTrans SourcedRun laterFirst :=
        ⟨fun _ _ _ hab hbc => le_trans hbc hab⟩
      exact List.sorted_insertionSort laterFirst _

/-- C4 witness: on the two concrete sources the aggregation succeeds with
a sorted permutation of the merged runs. -/
theorem C4_aggregation_witness :
    ∃ l, fetchMultiRepoRuns [repoA, repoB] "" fetchAB = .ok l ∧
      l.Perm (mergedRuns [repoA, repoB] "" fetchAB) ∧
      l.Pairwise laterFirst :=
  (C4_aggregation [repoA, repoB] "" fetchAB).2.2.2.1 (by decide)

/-! ## Theorems: selection toggles -/

/-- The removal scan answers none exactly for absent values. -/
theorem removeFirst_eq_none {α : Type} [DecidableEq α] (l : List α) (a : α) :
    removeFirst l a = none ↔ a ∉ l := by
  induction l with
  | nil => simp [removeFirst]
  | cons x xs ih =>
    by_cases h : x = a
    · subst h
      simp [removeFirst]
    · simp [removeFirst, h, Option.map_eq_none, ih, Ne.symm h]

/-- For a present value the removal scan removes exactly the first
occurrence. -/
theorem removeFirst_mem_erase {α : Type} [DecidableEq α] (l : List α) (a : α)
    (h : a ∈ l) : removeFirst l a = some (l.erase a) := by
  induction l with
  | nil => cases h
  | cons x xs ih =>
    by_cases hx : x = a
    · subst hx
      simp [removeFirst, List.erase_cons_head]
    · have hmem : a ∈ xs := by
        rcases List.mem_cons.mp h with h1 | h1
        · exact absurd h1.symm hx
        · exact h1
      simp [removeFirst, hx, ih hmem, List.erase_cons_tail, hx]

/-- C8 counterexample: the double-toggle claim fails for an identifier
that is currently selected: the selection [5] arises by one toggle on the
empty selection, and toggling 5 twice more leaves 5 present (it is removed
and then re-added), for the job-id toggle alike. -/
theorem C8_double_toggle_counterexample :
    toggleStepFilter [] 5 = [5] ∧
    toggleStepFilter (toggleStepFilter [5] 5) 5 = [5] ∧
    5 ∈ toggleStepFilter (toggleStepFilter [5] 5) 5 ∧
    toggleMultiJobSelection (toggleMultiJobSelection [7] 7) 7 = [7] :=
  ⟨by decide, by decide, by decide, by decide⟩

/-- C8 (amended): toggling an identifier that is not currently selected
twice restores the selection exactly (so the identifier ends absent), for
both the step filter and the multi-job selection; both toggles preserve
freedom from duplicates; and toggling an unselected job id while 4 are
selected is a no-op. -/
theorem C8_toggle_properties (sel : List Nat) (selJ : List Int) (n : Nat)
    (id : Int) :
    (n ∉ sel → toggleStepFilter (toggleStepFilter sel n) n = sel) ∧
    (id ∉ selJ →
      toggleMultiJobSelection (toggleMultiJobSelection selJ id) id = selJ) ∧
    (sel.Nodup → (toggleStepFilter sel n).Nodup) ∧
    (selJ.Nodup → (toggleMultiJobSelection selJ id).Nodup) ∧
    (id ∉ selJ → selJ.length = 4 → toggleMultiJobSelection selJ id = selJ) := by
  have herase : ∀ {α : Type} [DecidableEq α] (l : List α) (a : α), a ∉ l →
      (l ++ [a]).erase a = l := by
    intro α _ l a ha
    rw [List.erase_append_right _ ha, List.erase_cons_head, List.append_nil]
  refine ⟨?_, ?_, ?_, ?_, ?_⟩
  · intro h
    have h1 : toggleStepFilter sel n = sel ++ [n] := by
      rw [toggleStepFilter, (removeFirst_eq_none sel n).mpr h]
    rw [h1, toggleStepFilter,
      removeFirst_mem_erase _ _ (by simp : n ∈ sel ++ [n])]
    exact herase _ _ h
  · intro h
    by_cases hl : selJ.length < 4
    · have h1 : toggleMultiJobSelection selJ id = selJ ++ [id] := by
        rw [toggleMultiJobSelection, (removeFirst_eq_none selJ id).mpr h]
        exact if_pos hl
      rw [h1, toggleMultiJobSelection,
        removeFirst_mem_erase _ _ (by simp : id ∈ selJ ++ [id])]
      exact herase _ _ h
    · have h1 : toggleMultiJobSelection selJ id = selJ := by
        rw [toggleMultiJobSelection, (removeFirst_eq_none selJ id).mpr h]
        exact if_neg hl
      rw [h1]
      exact h1
  · intro hnd
    by_cases h : n ∈ sel
    · rw [toggleStepFilter, removeFirst_mem_erase _ _ h]
      exact hnd.erase n
    · rw [toggleStepFilter, (removeFirst_eq_none sel n).mpr h]
      simp [List.nodup_append, hnd, h]
  · intro hnd
    by_cases h : id ∈ selJ
    · rw [toggleMultiJobSelection, removeFirst_mem_erase _ _ h]
      exact hnd.erase id
    · rw [toggleMultiJobSelection, (removeFirst_eq_none selJ id).mpr h]
      by_cases hl : selJ.length < 4
      · have h2 : selJ ++ [id] = if selJ.length < 4 then selJ ++ [id] else selJ :=
          (if_pos hl).symm
        rw [← h2]
        simp [List.nodup_append, hnd, h]
      · have h2 : selJ = if selJ.length < 4 then selJ ++ [id] else selJ :=
          (if_neg hl).symm
        rw [← h2]
        exact hnd
  · intro h hlen
    rw [toggleMultiJobSelection, (removeFirst_eq_none selJ id).mpr h]
    exact if_neg (by omega)

/-- C8 witness: toggling step 5 twice starting from the empty selection
leaves the selection empty. -/
theorem C8_toggle_properties_witness :
    toggleStepFilter (toggleStepFilter [] 5) 5 = [] :=
  (C8_toggle_properties [] [] 5 7).1 (by simp)

/-! ## Theorems: controller -/

/-- Setting the exit code touches no other field. -/
theorem updateExitCode_fields (m : TuiModel) :
    (updateExitCode m).watching = m.watching ∧
    (updateExitCode m).notificationSent = m.notificationSent ∧
    (updateExitCode m).selectedRunIndex = m.selectedRunIndex ∧
    (updateExitCode m).selectedSourcedRun = m.selectedSourcedRun ∧
    (updateExitCode m).cursor = m.cursor ∧
    (updateExitCode m).jobs = m.jobs := by
  rcases hm : m.run with _ | r <;> simp only [updateExitCode, hm] <;>
    (try split_ifs) <;> simp

/-- One allowed step (no watch-on toggle) spends at most the notification
budget: the notification count of the step plus the remaining budget after the
step is bounded by the budget before it. -/
theorem stepMsg_guard (m : TuiModel) (e : TuiMsg)
    (h : e = .keyWatch → m.watching = true) :
    (stepMsg m e).2 +
        (if (stepMsg m e).1.notificationSent then 0 else 1) ≤
      (if m.notificationSent then 0 else 1) := by
  cases e with
  | runsLoaded rs =>
    simp only [stepMsg]
    by_cases h0 : 0 < rs.length <;> simp [h0]
  | multiRepoRunsLoaded srs =>
    simp only [stepMsg]
    by_cases h0 : 0 < srs.length
    · simp only [h0, if_true]
      cases hsr : srs.get? (if (srs.length : Int) ≤ m.selectedSourcedRun then 0
          else m.selectedSourcedRun).toNat <;> simp [hsr]
    · simp [h0]
  | jobsLoaded js =>
    simp only [stepMsg]
    try dsimp only
    split_ifs with h1 h2 <;>
      simp_all [updateExitCode_fields, Nat.le_refl]
  | keyWatch =>
    have hw := h rfl
    simp [stepMsg, hw]

/-- Over any message sequence with no watch-on toggle, the notification
count plus the remaining budget never exceeds the starting budget. -/
theorem runTrace_guard (evs : List TuiMsg) :
    ∀ m : TuiModel, noWatchOn m evs = true →
      (runTrace m evs).2 +
          (if (runTrace m evs).1.notificationSent then 0 else 1) ≤
        (if m.notificationSent then 0 else 1) := by
  induction evs with
  | nil =>
    intro m _
    simp [runTrace]
  | cons e rest ih =>
    intro m h
    rw [noWatchOn, Bool.and_eq_true] at h
    obtain ⟨h1, h2⟩ := h
    have hstep := stepMsg_guard m e (by
      intro he
      subst he
      simpa using h1)
    have hrest := ih (stepMsg m e).1 h2
    rw [runTrace]
    try dsimp only
    by_cases b1 : m.notificationSent <;>
      by_cases b2 : (stepMsg m e).1.notificationSent <;>
      by_cases b3 : (runTrace (stepMsg m e).1 rest).1.notificationSent <;>
      simp only [b1, b2, b3, if_true, if_false] at hstep hrest ⊢ <;> omega

/-- C7: a jobs-loaded message arriving while watching with a completed run
turns watching off, notifies exactly when the guard is clear, and sets the
guard; over any modelled message sequence with no watch-on toggle the
collaborator is invoked at most once (never when the guard is already
set); and a watch-on toggle clears the guard while turning watching on. -/
theorem C7_notify_once_per_session (m : TuiModel) (jobs : List Job)
    (evs : List TuiMsg) :
    (∀ r, m.run = some r → r.IsCompleted = true → m.watching = true →
      (stepMsg m (.jobsLoaded jobs)).1.watching = false ∧
      (stepMsg m (.jobsLoaded jobs)).2 =
        (if m.notificationSent then 0 else 1) ∧
      (stepMsg m (.jobsLoaded jobs)).1.notificationSent = true) ∧
    (noWatchOn m evs = true →
      (runTrace m evs).2 ≤ (if m.notificationSent then 0 else 1)) ∧
    (m.watching = false →
      (stepMsg m .keyWatch).1.notificationSent = false ∧
      (stepMsg m .keyWatch).1.watching = true) := by
  refine ⟨?_, ?_, ?_⟩
  · intro r hrun hcomp hw
    simp only [stepMsg]
    try dsimp only
    rw [hw, hrun]
    simp only [hcomp, if_true, Bool.true_and]
    cases hns : m.notificationSent <;>
      simp_all [updateExitCode_fields]
  · intro h
    have := runTrace_guard evs m h
    omega
  · intro hw
    simp [stepMsg, hw]

/-- C7 witness: on the concrete watching controller with a completed run,
one jobs-loaded message stops watching, notifies once, and sets the
guard. -/
theorem C7_notify_once_per_session_witness :
    (stepMsg mW (.jobsLoaded [])).1.watching = false ∧
    (stepMsg mW (.jobsLoaded [])).2 = (if mW.notificationSent then 0 else 1) ∧
    (stepMsg mW (.jobsLoaded [])).1.notificationSent = true :=
  (C7_notify_once_per_session mW [] []).1 rdone rfl (by decide) rfl

/-- C9 counterexample: after the update step consuming a jobs-loaded
message with an empty job list, the job collection is empty yet the job
cursor is 0, not the -1 the claim requires for empty collections (the
same already holds of the startup state for every collection). -/
theorem C9_cursor_counterexample :
    (stepMsg (NewModelState false false "octo" "hello")
        (.jobsLoaded [])).1.jobs = [] ∧
    (stepMsg (NewModelState false false "octo" "hello")
        (.jobsLoaded [])).1.cursor = 0 ∧
    (stepMsg (NewModelState false false "octo" "hello")
        (.jobsLoaded [])).1.cursor ≠ -1 :=
  ⟨by decide, by decide, by decide⟩

/-- C9 (amended): modelled update steps keep every selection cursor
non-negative; a runs-loaded (resp. multi-repo-runs-loaded) message with a
non-empty list clamps its selection index into [0, length - 1]; at
startup all cursors are 0 while all collections are empty, and a cursor
over an empty collection keeps its previous non-negative value rather
than -1. -/
theorem C9_cursor_clamping (m : TuiModel) (msg : TuiMsg) :
    (0 ≤ m.selectedRunIndex → 0 ≤ m.selectedSourcedRun → 0 ≤ m.cursor →
      0 ≤ (stepMsg m msg).1.selectedRunIndex ∧
      0 ≤ (stepMsg m msg).1.selectedSourcedRun ∧
      0 ≤ (stepMsg m msg).1.cursor) ∧
    (∀ rs : List WorkflowRun, rs ≠ [] → 0 ≤ m.selectedRunIndex →
      0 ≤ (stepMsg m (.runsLoaded rs)).1.selectedRunIndex ∧
      (stepMsg m (.runsLoaded rs)).1.selectedRunIndex < (rs.length : Int)) ∧
    (∀ srs : List SourcedRun, srs ≠ [] → 0 ≤ m.selectedSourcedRun →
      0 ≤ (stepMsg m (.multiRepoRunsLoaded srs)).1.selectedSourcedRun ∧
      (stepMsg m (.multiRepoRunsLoaded srs)).1.selectedSourcedRun <
        (srs.length : Int)) ∧
    (∀ (w mr : Bool) (o rp : String),
      (NewModelState w mr o rp).selectedRunIndex = 0 ∧
      (NewModelState w mr o rp).selectedSourcedRun = 0 ∧
      (NewModelState w mr o rp).cursor = 0) := by
  refine ⟨?_, ?_, ?_, fun w mr o rp => ⟨rfl, rfl, rfl⟩⟩
  · intro hr hs hc
    cases msg with
    | runsLoaded rs =>
      simp only [stepMsg]
      by_cases h0 : 0 < rs.length
      · simp only [h0, if_true]
        refine ⟨?_, hs, hc⟩
        try dsimp only
        split_ifs <;> omega
      · simp only [h0, if_false]
        exact ⟨hr, hs, hc⟩
    | multiRepoRunsLoaded srs =>
      simp only [stepMsg]
      by_cases h0 : 0 < srs.length
      · simp only [h0, if_true]
        cases hsr : srs.get? (if (srs.length : Int) ≤ m.selectedSourcedRun
            then 0 else m.selectedSourcedRun).toNat <;>
          simp only [hsr] <;>
          refine ⟨hr, ?_, hc⟩ <;>
          (try dsimp only) <;> split_ifs <;> omega
      · simp only [h0, if_false]
        exact ⟨hr, hs, hc⟩
    | jobsLoaded js =>
      simp only [stepMsg]
      try dsimp only
      split_ifs <;>
        simp_all [updateExitCode_fields]
    | keyWatch =>
      simp only [stepMsg]
      try dsimp only
      split_ifs <;> exact ⟨hr, hs, hc⟩
  · intro rs hne hr
    simp only [stepMsg]
    have h0 : 0 < rs.length := List.length_pos.mpr hne
    simp only [h0, if_true]
    try dsimp only
    constructor <;> split_ifs <;> omega
  · intro srs hne hs
    simp only [stepMsg]
    have h0 : 0 < srs.length := List.length_pos.mpr hne
    simp only [h0, if_true]
    cases hsr : srs.get? (if (srs.length : Int) ≤ m.selectedSourcedRun
        then 0 else m.selectedSourcedRun).toNat <;>
      simp only [hsr] <;>
      constructor <;> (try dsimp only) <;> split_ifs <;> omega

/-- C9 witness: loading one run into the startup state clamps the run
selection index into the valid range. -/
theorem C9_cursor_clamping_witness :
    0 ≤ (stepMsg (NewModelState false false "octo" "hello")
        (.runsLoaded [rA1])).1.selectedRunIndex ∧
    (stepMsg (NewModelState false false "octo" "hello")
        (.runsLoaded [rA1])).1.selectedRunIndex <
      (([rA1] : List WorkflowRun).length : Int) :=
  (C9_cursor_clamping (NewModelState false false "octo" "hello")
    (.runsLoaded [rA1])).2.1 [rA1] (by simp) (by decide)

end Cimon
